import Mathlib

/-!
Shallow embedding of the `src/mcq_generator` pipeline of the
InterviewHelper repository (files `mdx_reader.py`,
`mdx_reader_full_length.py`, `mongo_db_connect.py`) together with proofs
about the embedded operations.

Python strings are modelled as `List Char`; Python dicts with string keys
and string values as association lists with Python's insertion-order
update semantics; fallible steps return `Except`/`Option`.
-/

abbrev Str := List Char

namespace PyStr

/-- Python whitespace characters stripped by `str.strip` (ASCII range). -/
def isWS (c : Char) : Bool :=
  c = ' ' || c = '\t' || c = '\n' || c = '\r' || c = Char.ofNat 11 || c = Char.ofNat 12

/-- Python `str.lstrip()`. -/
def lstrip (s : Str) : Str := s.dropWhile isWS

/-- Python `str.rstrip()`. -/
def rstrip (s : Str) : Str := (s.reverse.dropWhile isWS).reverse

/-- Python `str.strip()`. -/
def strip (s : Str) : Str := rstrip (lstrip s)

/-- Index of the first occurrence of `sep` in `s` (Python `str.find`),
`none` when `sep` does not occur. -/
def findSub (sep : Str) : Str → Option Nat
  | [] => if sep.isEmpty then some 0 else none
  | c :: t => if sep.isPrefixOf (c :: t) then some 0 else (findSub sep t).map (· + 1)

/-- Python `s.split(sep, maxsplit)`: split on the leftmost occurrences of
`sep`, at most `maxsplit` times. -/
def splitLim (sep : Str) : Nat → Str → List Str
  | 0, s => [s]
  | m + 1, s =>
    match findSub sep s with
    | none => [s]
    | some i => s.take i :: splitLim sep m (s.drop (i + sep.length))

/-- Python `s.split(sep)` with no maxsplit.  For a non-empty separator at
most `s.length` splits can happen, so a fuel of `s.length` is exact. -/
def splitAll (sep : Str) (s : Str) : List Str := splitLim sep s.length s

/-- Python `sub in s` for strings. -/
def containsSub (sub s : Str) : Bool := (findSub sub s).isSome

/-- A Python `dict` with string keys/values: association list in insertion
order; assigning to an existing key replaces its value in place. -/
abbrev Dict := List (Str × Str)

/-- Python `d[k] = v`. -/
def dictInsert (k v : Str) : Dict → Dict
  | [] => [(k, v)]
  | (k0, v0) :: rest => if k0 = k then (k, v) :: rest else (k0, v0) :: dictInsert k v rest

/-- Python `d.get(k)` / `d[k]` lookup. -/
def dictGet (k : Str) : Dict → Option Str
  | [] => none
  | (k0, v0) :: rest => if k0 = k then some v0 else dictGet k rest

end PyStr

namespace MdxReader

/-- The 3-character front-matter delimiter `---`. -/
def dashes : Str := ['-', '-', '-']

/-- One iteration of the metadata loop of `LocalMDXReader.parse_frontmatter`
(lines 61-64): a line containing a colon is split on the first colon into a
trimmed key/value pair; a line without a colon contributes nothing. -/
def lineEntry (line : Str) : Option (Str × Str) :=
  if PyStr.containsSub [':'] line then
    match PyStr.splitLim [':'] 1 line with
    | k :: v :: _ => some (PyStr.strip k, PyStr.strip v)
    | _ => none
  else none

/-- One step of the metadata fold: apply a line's key/value pair to the
dict, or leave the dict unchanged for a line without a colon. -/
def metaStep (d : PyStr.Dict) (line : Str) : PyStr.Dict :=
  match lineEntry line with
  | some kv => PyStr.dictInsert kv.1 kv.2 d
  | none => d

/-- The metadata loop of `LocalMDXReader.parse_frontmatter` (lines 59-66):
fold the lines of the front-matter block into a dict, later lines with the
same key overwriting earlier ones. -/
def parseMetaLines (lines : List Str) : PyStr.Dict :=
  lines.foldl metaStep []

/-- `LocalMDXReader.parse_frontmatter` (mdx_reader.py lines 36-66; the copy
in mdx_reader_full_length.py is identical): front matter is parsed only when
the content starts with `---` and `content.split('---', 2)` yields 3 parts;
otherwise the empty dict and the unchanged content are returned. -/
def parse_frontmatter (content : Str) : PyStr.Dict × Str :=
  if dashes.isPrefixOf content = false then ([], content)
  else
    match PyStr.splitLim dashes 2 content with
    | _ :: p1 :: p2 :: _ =>
      (parseMetaLines (PyStr.splitAll ['\n'] (PyStr.strip p1)), PyStr.strip p2)
    | _ => ([], content)

end MdxReader

namespace FullLength

/-- A generated question object as `MCQGenerator.save_to_file` in
`mdx_reader_full_length.py` sees it: a JSON object whose `question` field
may be absent (`none`), all other fields (options, correct_answer, ...)
abstracted into `rest`.  The dedup logic reads only `q.get('question', '')`. -/
structure Question (ρ : Type) where
  question : Option Str
  rest : ρ
deriving DecidableEq

/-- Python `q.get('question', '')` (mdx_reader_full_length.py line 254). -/
def qText {ρ : Type} (q : Question ρ) : Str := q.question.getD []

/-- The dedup loop of `MCQGenerator.save_to_file`
(mdx_reader_full_length.py lines 251-257): walk the combined list keeping a
`seen` set of question texts and an output accumulator. -/
def dedupLoop {ρ : Type} (seen : List Str) (acc : List (Question ρ)) :
    List (Question ρ) → List (Question ρ)
  | [] => acc
  | q :: qs =>
    if qText q ∈ seen then dedupLoop seen acc qs
    else dedupLoop (qText q :: seen) (acc ++ [q]) qs

/-- The pure content computation of `MCQGenerator.save_to_file`
(mdx_reader_full_length.py lines 225-267): the file is rewritten with
`existing + new` deduplicated by question text. -/
def save_to_file {ρ : Type} (existing new : List (Question ρ)) :
    List (Question ρ) :=
  dedupLoop [] [] (existing ++ new)

/-- Declarative statement of the spec's dedup description: keep each
element whose question text did not occur earlier, i.e. keep the first
occurrence of every question text. -/
def keepFirstBy {ρ : Type} : List (Question ρ) → List (Question ρ)
  | [] => []
  | q :: qs => q :: keepFirstBy (qs.filter (fun r => decide (qText r ≠ qText q)))
termination_by l => l.length
decreasing_by
  simp only [List.length_cons]
  exact Nat.lt_succ_of_le (List.length_filter_le _ _)

/-- The set of question texts the dedup loop has seen after scanning `l`,
starting from `seen`. -/
def seenAfter {ρ : Type} (seen : List Str) : List (Question ρ) → List Str
  | [] => seen
  | q :: qs =>
    if qText q ∈ seen then seenAfter seen qs else seenAfter (qText q :: seen) qs

end FullLength

namespace Mongo

/-- A question object as `process_data` in `mongo_db_connect.py` sees it:
the `question_id` key may be absent (`none`), the `source_file` key may be
absent, every other field is abstracted into `rest`.  Equality of two such
values models Python dict equality (order-insensitive key/value
comparison). -/
structure MQ (ρ : Type) where
  question_id : Option Nat
  source_file : Option Str
  rest : ρ
deriving DecidableEq

/-- The loop of `process_data` (mongo_db_connect.py lines 72-75) with the
1-based `enumerate` counter made explicit:
`question["question_id"] = question.get("question_id", i)` keeps a present
id and otherwise assigns the counter; `question["source_file"] = filename`
always overwrites. -/
def processFrom {ρ : Type} (filename : Str) : Nat → List (MQ ρ) → List (MQ ρ)
  | _, [] => []
  | i, q :: qs =>
    { q with
      question_id := some (q.question_id.getD i),
      source_file := some filename } :: processFrom filename (i + 1) qs

/-- `process_data(filename, data)` (mongo_db_connect.py lines 69-76):
`enumerate(data, 1)` starts the counter at 1. -/
def process_data {ρ : Type} (filename : Str) (data : List (MQ ρ)) :
    List (MQ ρ) :=
  processFrom filename 1 data

/-- A remote corpus record `{key, questions}` as built by `main`
(mongo_db_connect.py line 136). -/
structure Doc (ρ : Type) where
  key : Str
  questions : List (MQ ρ)
deriving DecidableEq

/-- The remote write performed by `push_to_mongodb`: no write, an
`update_one` replacing the questions, or an `insert_one` of a record. -/
inductive Op (ρ : Type) where
  | skip : Op ρ
  | update : List (MQ ρ) → Op ρ
  | insert : Doc ρ → Op ρ
deriving DecidableEq

/-- The decision logic of `push_to_mongodb(collection, data, filename)`
(mongo_db_connect.py lines 78-108): `existing` is what
`find_one({key: filename})` returned; an empty `data` returns without any
write; otherwise the existing record's questions are compared against
`data[0]["questions"]` and an update happens only on inequality, while a
missing record is inserted as `data[0]`. -/
def push_to_mongodb {ρ : Type} [DecidableEq ρ] (existing : Option (Doc ρ))
    (data : List (Doc ρ)) : Op ρ :=
  match data with
  | [] => Op.skip
  | d0 :: _ =>
    match existing with
    | some doc =>
      if doc.questions ≠ d0.questions then Op.update d0.questions else Op.skip
    | none => Op.insert d0

/-- The per-file body of `main` (mongo_db_connect.py lines 130-139): when
the loaded JSON data is truthy (non-empty), process it and push
`[{key: filename, questions: processed}]`. -/
def syncFileOp {ρ : Type} [DecidableEq ρ] (existing : Option (Doc ρ)) (filename : Str)
    (json_data : List (MQ ρ)) : Op ρ :=
  match json_data with
  | [] => Op.skip
  | _ =>
    push_to_mongodb existing [⟨filename, process_data filename json_data⟩]

/-- Effect of an issued operation on the remote record stored under the
file's key (MongoDB `update_one` with `$set` / `insert_one`). -/
def applyOp {ρ : Type} (existing : Option (Doc ρ)) : Op ρ → Option (Doc ρ)
  | Op.skip => existing
  | Op.update qs =>
    match existing with
    | some d => some { d with questions := qs }
    | none => none
  | Op.insert d => some d

end Mongo

namespace MdxReader

/-- Which of the two file writes of `MCQGenerator.save_to_file` in
`mdx_reader.py` fail when attempted: the write under
`src/mcq_generator/questions` and the mirrored write under
`public/mcq_generator/questions`. -/
structure SaveWorld where
  srcFails : Bool
  publicFails : Bool
deriving DecidableEq

/-- Observable outcome of one `save_to_file` call: the content each
location ends up holding (`none` when nothing was written there), whether
the public write was ever attempted, and whether the `except` branch
logged an error. -/
structure SaveOutcome (α : Type) where
  srcWritten : Option α
  publicAttempted : Bool
  publicWritten : Option α
  errorLogged : Bool
deriving DecidableEq

/-- `MCQGenerator.save_to_file` of mdx_reader.py (lines 225-241).  Both
writes sit in one `try` block: an exception during the src write jumps to
`except` before the public write is attempted; an exception during the
public write leaves the completed src write in place; when neither fails
both locations receive the same `questions` dump. -/
def save_to_file {α : Type} (questions : α) (w : SaveWorld) : SaveOutcome α :=
  if w.srcFails then
    { srcWritten := none, publicAttempted := false, publicWritten := none,
      errorLogged := true }
  else if w.publicFails then
    { srcWritten := some questions, publicAttempted := true,
      publicWritten := none, errorLogged := true }
  else
    { srcWritten := some questions, publicAttempted := true,
      publicWritten := some questions, errorLogged := false }

end MdxReader

namespace FullLength

/-- The stem of a path's final component (`pathlib.Path.stem`): the name
up to its last dot, for regular names with the dot not in first
position. -/
def stem (name : Str) : Str :=
  match (name.reverse.findIdx? (fun c => c = '.')) with
  | none => name
  | some j =>
    let i := name.length - 1 - j
    if i = 0 then name else name.take i

/-- `convert_to_json_name` (mdx_reader_full_length.py lines 291-301) on a
path given by its components: the parent components in order, minus any
`pages` or `..` component, joined with underscores, followed by an
underscore, the file stem and `.json`. -/
def convert_to_json_name (segments : List Str) : Str :=
  let parent_names := segments.dropLast.filter
    (fun p => !(p = "pages".data) && !(p = "..".data))
  let base_name := stem (segments.getLastD [])
  (List.intercalate "_".data parent_names) ++ "_".data ++ base_name ++ ".json".data

/-- A discovered document as the react-batching loop of `main` sees it:
its path (as components) and its body content, `null` when the read
failed. -/
structure FileData where
  pathSegments : List Str
  content : Option Str
deriving DecidableEq

/-- The Python error raised by `"s" + None`. -/
inductive PyError where
  | typeError
deriving DecidableEq

/-- One iteration of the react-batching loop of `main`
(mdx_reader_full_length.py lines 324-335) on the state
`(output_string, counter)`: a file whose derived json name contains
`react` has its content appended behind a name header and bumps the
counter (the dead flush branch `counter % 1 == 10` resets the
accumulator); concatenating the header with a `None` content raises
`TypeError`. -/
def batchStep (st : Str × Nat) (fd : FileData) : Except PyError (Str × Nat) :=
  let output_filename := convert_to_json_name fd.pathSegments
  if PyStr.containsSub "react".data output_filename then
    match fd.content with
    | none => Except.error PyError.typeError
    | some c =>
      let s := st.1 ++ "\n\n".data ++ output_filename ++ "\n\n".data ++ c
      let counter := st.2 + 1
      if counter ≠ 0 ∧ counter % 1 = 10 then Except.ok ([], counter)
      else Except.ok (s, counter)
  else Except.ok st

end FullLength

namespace Regex

/-- Abstract syntax of the fragment of Python regular expressions used by
`LocalMDXReader.extract_links`: the empty pattern, single-character
literals, character classes, greedy and lazy star over a class, greedy
plus over a class, a capture group, and sequencing.  Every quantifier in
the two link patterns ranges over a single character class, and no group
nests, so this fragment is exact for them. -/
inductive RE where
  | eps : RE
  | lit : Char → RE
  | cls : (Char → Bool) → RE
  | starG : (Char → Bool) → RE
  | starL : (Char → Bool) → RE
  | plusG : (Char → Bool) → RE
  | grp : RE → RE
  | seq : RE → RE → RE

/-- All ways `re` can match a prefix of `s`, in the backtracking priority
order Python's engine explores: each entry is the list of captured
substrings paired with the remaining suffix.  Greedy quantifiers
enumerate longer repetitions first, lazy ones shorter first; sequencing
explores the left side's alternatives in order. -/
def matchList : RE → Str → List (List Str × Str)
  | RE.eps, s => [([], s)]
  | RE.lit c, s =>
    match s with
    | [] => []
    | x :: t => if x = c then [([], t)] else []
  | RE.cls p, s =>
    match s with
    | [] => []
    | x :: t => if p x then [([], t)] else []
  | RE.starG p, s =>
    (List.range ((s.takeWhile p).length + 1)).map
      (fun j => ([], s.drop ((s.takeWhile p).length - j)))
  | RE.starL p, s =>
    (List.range ((s.takeWhile p).length + 1)).map (fun j => ([], s.drop j))
  | RE.plusG p, s =>
    (List.range (s.takeWhile p).length).map
      (fun j => ([], s.drop ((s.takeWhile p).length - j)))
  | RE.grp r, s =>
    (matchList r s).map (fun pr => ([s.take (s.length - pr.2.length)], pr.2))
  | RE.seq a b, s =>
    (matchList a s).flatMap (fun pa =>
      (matchList b pa.2).map (fun pb => (pa.1 ++ pb.1, pb.2)))

/-- `re.findall(pattern, s)` with `fuel` bounding the number of scan
steps: at each position take the backtracking engine's first match, emit
its captures and continue after the match, advancing one character past a
failure or an empty match. -/
def findallFrom : Nat → RE → Str → List (List Str)
  | 0, _, _ => []
  | fuel + 1, re, s =>
    match (matchList re s).head? with
    | some pr =>
      pr.1 :: (if pr.2.length < s.length then findallFrom fuel re pr.2
               else
                 match s with
                 | [] => []
                 | _ :: t => findallFrom fuel re t)
    | none =>
      match s with
      | [] => []
      | _ :: t => findallFrom fuel re t

/-- `re.findall(pattern, s)`: a fuel of `s.length + 1` covers every scan
position. -/
def findall (re : RE) (s : Str) : List (List Str) :=
  findallFrom (s.length + 1) re s

/-- A literal string as a pattern. -/
def litStr (s : Str) : RE :=
  s.foldr (fun c r => RE.seq (RE.lit c) r) RE.eps

/-- Python `\s` on ASCII text. -/
def isSpaceP (c : Char) : Bool :=
  c = ' ' || c = '\t' || c = '\n' || c = '\r' || c = Char.ofNat 11 || c = Char.ofNat 12

/-- The class `["\']`: a double or single quote. -/
def isQuoteP (c : Char) : Bool :=
  c = Char.ofNat 34 || c = Char.ofNat 39

/-- Python `.` without DOTALL: any character except a newline. -/
def notNl (c : Char) : Bool := !(c = '\n')

/-- Any character except `>`, the class `[^>]`. -/
def notGt (c : Char) : Bool := !(c = '>')

/-- `markdown_link_pattern` (mdx_reader.py line 138):
the pattern `\[([^\]]+)\]\(([^)]+)\)` with groups (text, url). -/
def markdown_link_pattern : RE :=
  RE.seq (RE.lit '[')
    (RE.seq (RE.grp (RE.plusG (fun c => !(c = ']'))))
      (RE.seq (RE.lit ']')
        (RE.seq (RE.lit '(')
          (RE.seq (RE.grp (RE.plusG (fun c => !(c = ')'))))
            (RE.lit ')')))))

/-- `html_link_pattern` (mdx_reader.py line 139): the pattern
`<a\s+[^>]*href=["\'](.*?)["\'][^>]*>(.*?)<\/a>` with groups
(url, text). -/
def html_link_pattern : RE :=
  RE.seq (RE.lit '<')
    (RE.seq (RE.lit 'a')
      (RE.seq (RE.plusG isSpaceP)
        (RE.seq (RE.starG notGt)
          (RE.seq (litStr "href=".data)
            (RE.seq (RE.cls isQuoteP)
              (RE.seq (RE.grp (RE.starL notNl))
                (RE.seq (RE.cls isQuoteP)
                  (RE.seq (RE.starG notGt)
                    (RE.seq (RE.lit '>')
                      (RE.seq (RE.grp (RE.starL notNl))
                        (litStr "</a>".data)))))))))))

end Regex

namespace MdxReader

/-- An extracted link `{text, url}`. -/
structure Link where
  text : Str
  url : Str
deriving DecidableEq

/-- The markdown-scan half of `extract_links`:
`re.findall(markdown_link_pattern, content)` gives (text, url) pairs. -/
def markdownLinks (body : Str) : List Link :=
  (Regex.findall Regex.markdown_link_pattern body).filterMap
    (fun caps =>
      match caps with
      | [t, u] => some ⟨t, u⟩
      | _ => none)

/-- The HTML-scan half of `extract_links`:
`re.findall(html_link_pattern, content)` gives (url, text) pairs, turned
into `{text, url}` records. -/
def htmlLinks (body : Str) : List Link :=
  (Regex.findall Regex.html_link_pattern body).filterMap
    (fun caps =>
      match caps with
      | [u, t] => some ⟨t, u⟩
      | _ => none)

/-- The per-document body of `LocalMDXReader.extract_links` (mdx_reader.py
lines 141-162): a document with `content is None` gets the empty link
list; otherwise the markdown matches come first, then the HTML matches,
each in order of appearance, with no deduplication. -/
def extract_links_doc (content : Option Str) : List Link :=
  match content with
  | none => []
  | some body => markdownLinks body ++ htmlLinks body

end MdxReader

namespace FullLength

theorem dedupLoop_nil {ρ : Type} (seen : List Str) (acc : List (Question ρ)) :
    dedupLoop seen acc [] = acc := rfl

theorem dedupLoop_cons {ρ : Type} (seen : List Str) (acc : List (Question ρ))
    (q : Question ρ) (qs : List (Question ρ)) :
    dedupLoop seen acc (q :: qs)
      = if qText q ∈ seen then dedupLoop seen acc qs
        else dedupLoop (qText q :: seen) (acc ++ [q]) qs := rfl

theorem keepFirstBy_nil {ρ : Type} : keepFirstBy ([] : List (Question ρ)) = [] := by
  rw [keepFirstBy]

theorem keepFirstBy_cons {ρ : Type} (q : Question ρ) (qs : List (Question ρ)) :
    keepFirstBy (q :: qs)
      = q :: keepFirstBy (qs.filter (fun r => decide (qText r ≠ qText q))) := by
  rw [keepFirstBy]

theorem dedupLoop_acc {ρ : Type} (l : List (Question ρ)) :
    ∀ (seen : List Str) (acc : List (Question ρ)),
      dedupLoop seen acc l = acc ++ dedupLoop seen [] l := by
  induction l with
  | nil => intro seen acc; simp [dedupLoop_nil]
  | cons q qs ih =>
    intro seen acc
    by_cases h : qText q ∈ seen
    · rw [dedupLoop_cons, if_pos h, dedupLoop_cons, if_pos h]
      exact ih seen acc
    · rw [dedupLoop_cons, if_neg h, dedupLoop_cons, if_neg h]
      rw [ih _ (acc ++ [q]), ih _ ([] ++ [q])]
      simp [List.append_assoc]

theorem dedupLoop_seen_congr {ρ : Type} (l : List (Question ρ)) :
    ∀ (s₁ s₂ : List Str) (acc : List (Question ρ)),
      (∀ x, x ∈ s₁ ↔ x ∈ s₂) →
      dedupLoop s₁ acc l = dedupLoop s₂ acc l := by
  induction l with
  | nil => intro s₁ s₂ acc _; rfl
  | cons q qs ih =>
    intro s₁ s₂ acc h
    by_cases hq : qText q ∈ s₁
    · have hq₂ : qText q ∈ s₂ := (h _).mp hq
      rw [dedupLoop_cons, if_pos hq, dedupLoop_cons, if_pos hq₂]
      exact ih _ _ _ h
    · have hq₂ : qText q ∉ s₂ := fun c => hq ((h _).mpr c)
      rw [dedupLoop_cons, if_neg hq, dedupLoop_cons, if_neg hq₂]
      refine ih _ _ _ (fun x => ?_)
      simp only [List.mem_cons, h x]

theorem dedupLoop_cons_seen {ρ : Type} (t : Str) (l : List (Question ρ)) :
    ∀ (seen : List Str),
      dedupLoop (t :: seen) [] l
        = dedupLoop seen [] (l.filter (fun q => decide (qText q ≠ t))) := by
  induction l with
  | nil => intro seen; rfl
  | cons q qs ih =>
    intro seen
    by_cases hqt : qText q = t
    · have hmem : qText q ∈ t :: seen := by simp [hqt]
      rw [List.filter_cons, if_neg (by simp [hqt]), dedupLoop_cons, if_pos hmem]
      exact ih seen
    · by_cases hs : qText q ∈ seen
      · have hmem : qText q ∈ t :: seen := List.mem_cons_of_mem _ hs
        rw [List.filter_cons, if_pos (by simp [hqt]), dedupLoop_cons, if_pos hmem,
          dedupLoop_cons, if_pos hs]
        exact ih seen
      · have hmem : qText q ∉ t :: seen := by
          simp only [List.mem_cons]
          rintro (rfl | c)
          · exact hqt rfl
          · exact hs c
        rw [List.filter_cons, if_pos (by simp [hqt]), dedupLoop_cons, if_neg hmem,
          dedupLoop_cons, if_neg hs]
        rw [dedupLoop_acc qs, dedupLoop_acc (qs.filter _)]
        rw [dedupLoop_seen_congr qs (qText q :: t :: seen) (t :: qText q :: seen) []
          (fun x => by simp only [List.mem_cons]; tauto)]
        rw [ih (qText q :: seen)]

theorem dedupLoop_eq_keepFirstBy {ρ : Type} :
    ∀ (n : Nat) (l : List (Question ρ)), l.length ≤ n →
      dedupLoop [] [] l = keepFirstBy l := by
  intro n
  induction n with
  | zero =>
    intro l hl
    have h0 : l = [] := List.eq_nil_of_length_eq_zero (Nat.le_zero.mp hl)
    subst h0
    rw [dedupLoop_nil, keepFirstBy_nil]
  | succ n ih =>
    intro l hl
    match l with
    | [] => rw [dedupLoop_nil, keepFirstBy_nil]
    | q :: qs =>
      have hq : qText q ∉ ([] : List Str) := by simp
      rw [dedupLoop_cons, if_neg hq]
      rw [dedupLoop_acc qs, dedupLoop_cons_seen (qText q) qs []]
      rw [ih _ (Nat.le_trans (List.length_filter_le _ _)
        (Nat.le_of_succ_le_succ hl))]
      rw [keepFirstBy_cons]
      simp

theorem seenAfter_cons {ρ : Type} (seen : List Str) (q : Question ρ)
    (qs : List (Question ρ)) :
    seenAfter seen (q :: qs)
      = if qText q ∈ seen then seenAfter seen qs
        else seenAfter (qText q :: seen) qs := rfl

theorem dedupLoop_append {ρ : Type} (l m : List (Question ρ)) :
    ∀ (seen : List Str),
      dedupLoop seen [] (l ++ m)
        = dedupLoop seen [] l ++ dedupLoop (seenAfter seen l) [] m := by
  induction l with
  | nil => intro seen; simp [dedupLoop_nil, seenAfter]
  | cons q qs ih =>
    intro seen
    by_cases h : qText q ∈ seen
    · rw [List.cons_append, dedupLoop_cons, if_pos h, dedupLoop_cons, if_pos h,
        seenAfter_cons, if_pos h]
      exact ih seen
    · rw [List.cons_append, dedupLoop_cons, if_neg h, dedupLoop_cons, if_neg h,
        seenAfter_cons, if_neg h]
      rw [dedupLoop_acc (qs ++ m), dedupLoop_acc qs, ih (qText q :: seen)]
      simp [List.append_assoc]

theorem mem_texts_dedupLoop {ρ : Type} (l : List (Question ρ)) :
    ∀ (seen : List Str) (x : Str),
      x ∈ (dedupLoop seen [] l).map qText ↔ x ∈ l.map qText ∧ x ∉ seen := by
  induction l with
  | nil => intro seen x; simp [dedupLoop_nil]
  | cons q qs ih =>
    intro seen x
    by_cases h : qText q ∈ seen
    · rw [dedupLoop_cons, if_pos h, ih]
      simp only [List.map_cons, List.mem_cons]
      constructor
      · rintro ⟨hx, hs⟩
        exact ⟨Or.inr hx, hs⟩
      · rintro ⟨hx | hx, hs⟩
        · exact absurd (hx ▸ h) hs
        · exact ⟨hx, hs⟩
    · rw [dedupLoop_cons, if_neg h, dedupLoop_acc, List.nil_append,
        List.singleton_append, List.map_cons, List.mem_cons, ih (qText q :: seen) x]
      simp only [List.map_cons, List.mem_cons]
      constructor
      · rintro (rfl | ⟨hx, hne⟩)
        · exact ⟨Or.inl rfl, h⟩
        · exact ⟨Or.inr hx, fun c => hne (Or.inr c)⟩
      · rintro ⟨rfl | hx, hs⟩
        · exact Or.inl rfl
        · by_cases hxt : x = qText q
          · exact Or.inl hxt
          · exact Or.inr ⟨hx, fun c => (c.elim hxt hs)⟩

theorem dedupLoop_all_seen {ρ : Type} (m : List (Question ρ)) :
    ∀ (seen : List Str), (∀ q ∈ m, qText q ∈ seen) →
      dedupLoop seen [] m = [] := by
  induction m with
  | nil => intro seen _; rfl
  | cons q qs ih =>
    intro seen h
    rw [dedupLoop_cons, if_pos (h q (List.mem_cons_self q qs))]
    exact ih seen (fun r hr => h r (List.mem_cons_of_mem _ hr))

theorem mem_seenAfter {ρ : Type} (l : List (Question ρ)) :
    ∀ (seen : List Str) (x : Str),
      x ∈ seenAfter seen l ↔ x ∈ seen ∨ x ∈ l.map qText := by
  induction l with
  | nil => intro seen x; simp [seenAfter]
  | cons q qs ih =>
    intro seen x
    by_cases h : qText q ∈ seen
    · rw [seenAfter_cons, if_pos h, ih]
      simp only [List.map_cons, List.mem_cons]
      constructor
      · rintro (hs | hx)
        exacts [Or.inl hs, Or.inr (Or.inr hx)]
      · rintro (hs | rfl | hx)
        exacts [Or.inl hs, Or.inl h, Or.inr hx]
    · rw [seenAfter_cons, if_neg h, ih]
      simp only [List.mem_cons, List.map_cons]
      tauto

theorem nodup_texts_dedupLoop {ρ : Type} (l : List (Question ρ)) :
    ∀ (seen : List Str), ((dedupLoop seen [] l).map qText).Nodup := by
  induction l with
  | nil => intro seen; simp [dedupLoop_nil]
  | cons q qs ih =>
    intro seen
    by_cases h : qText q ∈ seen
    · rw [dedupLoop_cons, if_pos h]
      exact ih seen
    · rw [dedupLoop_cons, if_neg h, dedupLoop_acc]
      simp only [List.map_append, List.map_cons, List.map_nil, List.singleton_append]
      refine List.nodup_cons.mpr ⟨?_, ih (qText q :: seen)⟩
      intro hmem
      exact ((mem_texts_dedupLoop qs _ _).mp hmem).2 (List.mem_cons_self _ _)

theorem dedupLoop_self {ρ : Type} (l : List (Question ρ)) :
    ∀ (seen : List Str), (l.map qText).Nodup →
      (∀ x ∈ l.map qText, x ∉ seen) →
      dedupLoop seen [] l = l := by
  induction l with
  | nil => intro seen _ _; rfl
  | cons q qs ih =>
    intro seen hnd hdisj
    have hq : qText q ∉ seen := hdisj _ (by simp)
    have hnd' : qText q ∉ List.map qText qs ∧ (List.map qText qs).Nodup := by
      rw [List.map_cons, List.nodup_cons] at hnd
      exact hnd
    have hrest : dedupLoop (qText q :: seen) [] qs = qs := by
      refine ih (qText q :: seen) hnd'.2 ?_
      intro x hx
      simp only [List.mem_cons]
      rintro (rfl | hs)
      · exact hnd'.1 hx
      · exact hdisj x
          (by simp only [List.map_cons, List.mem_cons]; exact Or.inr hx) hs
    rw [dedupLoop_cons, if_neg hq, dedupLoop_acc, hrest]
    simp

theorem save_to_file_idem {ρ : Type} (existing new : List (Question ρ)) :
    save_to_file (save_to_file existing new) new = save_to_file existing new := by
  unfold save_to_file
  rw [dedupLoop_append]
  have hfix : dedupLoop [] [] (dedupLoop [] [] (existing ++ new))
      = dedupLoop [] [] (existing ++ new) := by
    refine dedupLoop_self _ [] (nodup_texts_dedupLoop (existing ++ new) []) ?_
    simp
  rw [hfix]
  have hall : ∀ q ∈ new,
      qText q ∈ seenAfter [] (dedupLoop [] [] (existing ++ new)) := by
    intro q hq
    rw [mem_seenAfter]
    right
    rw [mem_texts_dedupLoop]
    refine ⟨?_, by simp⟩
    exact List.mem_map_of_mem qText (List.mem_append_right existing hq)
  rw [dedupLoop_all_seen new _ hall]
  simp

theorem filter_dedupLoop {ρ : Type} (t : Str) (l : List (Question ρ)) :
    ∀ (seen : List Str),
      (dedupLoop seen [] l).filter (fun q => decide (qText q = t))
        = if t ∈ seen then []
          else (l.filter (fun q => decide (qText q = t))).take 1 := by
  induction l with
  | nil =>
    intro seen
    rw [dedupLoop_nil]
    by_cases h : t ∈ seen <;> simp [h]
  | cons q qs ih =>
    intro seen
    by_cases hqt : qText q = t
    · have hfc : List.filter (fun r => decide (qText r = t)) (q :: qs)
          = q :: List.filter (fun r => decide (qText r = t)) qs := by
        rw [List.filter_cons]
        simp [hqt]
      by_cases hs : qText q ∈ seen
      · have hts : t ∈ seen := hqt ▸ hs
        rw [dedupLoop_cons, if_pos hs, ih seen, if_pos hts, if_pos hts]
      · have hts : t ∉ seen := hqt ▸ hs
        rw [dedupLoop_cons, if_neg hs, dedupLoop_acc, List.nil_append,
          List.filter_append]
        have h1 : List.filter (fun r => decide (qText r = t)) [q] = [q] := by
          simp [hqt]
        have htm : t ∈ qText q :: seen := by
          rw [← hqt]
          exact List.mem_cons_self _ _
        rw [h1, ih (qText q :: seen), if_pos htm, if_neg hts, hfc]
        simp
    · have hfc : List.filter (fun r => decide (qText r = t)) (q :: qs)
          = List.filter (fun r => decide (qText r = t)) qs := by
        rw [List.filter_cons]
        simp [hqt]
      by_cases hs : qText q ∈ seen
      · rw [dedupLoop_cons, if_pos hs, ih seen, hfc]
      · rw [dedupLoop_cons, if_neg hs, dedupLoop_acc, List.nil_append,
          List.filter_append]
        have h1 : List.filter (fun r => decide (qText r = t)) [q] = [] := by
          simp [hqt]
        rw [h1, List.nil_append, ih (qText q :: seen), hfc]
        by_cases ht : t ∈ seen
        · rw [if_pos (List.mem_cons_of_mem _ ht), if_pos ht]
        · rw [if_neg ?_, if_neg ht]
          simp only [List.mem_cons]
          rintro (rfl | c)
          · exact hqt rfl
          · exact ht c

end FullLength

/-- Claim C1: `save_to_file` rewrites the file to the concatenation of the
previously persisted questions followed by the new questions with
duplicates removed by exact question-text match, keeping the first
occurrence; in particular when an existing entry and a new entry have
identical question text, the existing entry with all its fields is the one
retained. -/
theorem c1_save_concat_dedup_first_wins :
    (∀ (ρ : Type) (existing new : List (FullLength.Question ρ)),
        FullLength.save_to_file existing new
          = FullLength.keepFirstBy (existing ++ new)) ∧
    (∀ (ρ : Type) (e q : FullLength.Question ρ),
        FullLength.qText e = FullLength.qText q →
        FullLength.save_to_file [e] [q] = [e]) := by
  constructor
  · intro ρ existing new
    exact FullLength.dedupLoop_eq_keepFirstBy (existing ++ new).length _ le_rfl
  · intro ρ e q h
    show FullLength.dedupLoop [] [] ([e] ++ [q]) = [e]
    rw [List.singleton_append, FullLength.dedupLoop_cons, if_neg (by simp)]
    rw [FullLength.dedupLoop_cons, if_pos (by simp [h])]
    rfl

theorem c1_save_concat_dedup_first_wins_witness :
    FullLength.save_to_file (ρ := Str)
        [⟨some "X".data, "A".data⟩] [⟨some "X".data, "B".data⟩]
      = [⟨some "X".data, "A".data⟩] :=
  c1_save_concat_dedup_first_wins.2 Str ⟨some "X".data, "A".data⟩
    ⟨some "X".data, "B".data⟩ rfl

/-- Claim C2: saving the same question list twice in succession leaves the
file content after the second save identical to the content after the
first save, whenever the new list's question texts are pairwise
distinct. -/
theorem c2_double_save_no_growth :
    ∀ (ρ : Type) (new existing : List (FullLength.Question ρ)),
      (new.map FullLength.qText).Nodup →
      FullLength.save_to_file (FullLength.save_to_file existing new) new
        = FullLength.save_to_file existing new := by
  intro ρ new existing _
  exact FullLength.save_to_file_idem existing new

theorem c2_double_save_no_growth_witness :
    FullLength.save_to_file (ρ := Str)
        (FullLength.save_to_file [] [⟨some "X".data, "A".data⟩])
        [⟨some "X".data, "A".data⟩]
      = FullLength.save_to_file [] [⟨some "X".data, "A".data⟩] :=
  c2_double_save_no_growth Str [⟨some "X".data, "A".data⟩] [] (by decide)

/-- Claim C10: in the dedup of `save_to_file`, a question object lacking
the `question` key is treated as having empty question text, and across
the merged existing-plus-new sequence at most one entry with missing or
empty question text survives, namely the first such entry. -/
theorem c10_missing_question_key_dedup :
    (∀ (ρ : Type) (r : ρ),
        FullLength.qText ⟨none, r⟩ = []) ∧
    (∀ (ρ : Type) (existing new : List (FullLength.Question ρ)),
        (FullLength.save_to_file existing new).filter
            (fun q => decide (FullLength.qText q = []))
          = ((existing ++ new).filter
              (fun q => decide (FullLength.qText q = []))).take 1) := by
  constructor
  · intro ρ r
    rfl
  · intro ρ existing new
    show (FullLength.dedupLoop [] [] (existing ++ new)).filter _ = _
    rw [FullLength.filter_dedupLoop, if_neg (by simp)]

namespace Mongo

theorem get?_processFrom {ρ : Type} (filename : Str) :
    ∀ (l : List (MQ ρ)) (c i : Nat),
      (processFrom filename c l).get? i
        = (l.get? i).map (fun q =>
            { q with
              question_id := some (q.question_id.getD (c + i)),
              source_file := some filename }) := by
  intro l
  induction l with
  | nil => intro c i; simp [processFrom]
  | cons q qs ih =>
    intro c i
    cases i with
    | zero => simp [processFrom]
    | succ j =>
      simp only [processFrom, List.get?]
      rw [ih (c + 1) j]
      have hc : c + 1 + j = c + (j + 1) := by omega
      rw [hc]

end Mongo

/-- Claim C4: when the existing remote record's questions sequence is
structurally equal to the sequence constructed from the file, neither an
update nor an insert is issued; consequently a second sync pass over an
unchanged file issues no remote write for that key, whatever the remote
held before the first pass. -/
theorem c4_unchanged_corpus_no_writes :
    (∀ (ρ : Type) (_inst : DecidableEq ρ) (doc d0 : Mongo.Doc ρ)
        (rest : List (Mongo.Doc ρ)),
        doc.questions = d0.questions →
        Mongo.push_to_mongodb (some doc) (d0 :: rest) = Mongo.Op.skip) ∧
    (∀ (ρ : Type) (_inst : DecidableEq ρ) (existing : Option (Mongo.Doc ρ))
        (filename : Str) (json_data : List (Mongo.MQ ρ)),
        Mongo.syncFileOp
            (Mongo.applyOp existing (Mongo.syncFileOp existing filename json_data))
            filename json_data
          = Mongo.Op.skip) := by
  constructor
  · intro ρ _inst doc d0 rest h
    show (if doc.questions ≠ d0.questions then Mongo.Op.update d0.questions
          else Mongo.Op.skip) = Mongo.Op.skip
    rw [if_neg (by simp [h])]
  · intro ρ _inst existing filename json_data
    match json_data with
    | [] => rfl
    | j :: js =>
      set p := Mongo.process_data filename (j :: js) with hp
      match existing with
      | none =>
        show Mongo.syncFileOp (some ⟨filename, p⟩) filename (j :: js) = Mongo.Op.skip
        show (if p ≠ p then Mongo.Op.update p else Mongo.Op.skip) = Mongo.Op.skip
        rw [if_neg (by simp)]
      | some doc =>
        have hpush : Mongo.push_to_mongodb (some doc) [⟨filename, p⟩]
            = if doc.questions ≠ p then Mongo.Op.update p else Mongo.Op.skip := rfl
        show Mongo.syncFileOp
            (Mongo.applyOp (some doc) (Mongo.push_to_mongodb (some doc) [⟨filename, p⟩]))
            filename (j :: js) = Mongo.Op.skip
        rw [hpush]
        by_cases h : doc.questions ≠ p
        · rw [if_pos h]
          show Mongo.syncFileOp (some { doc with questions := p }) filename (j :: js)
            = Mongo.Op.skip
          show (if p ≠ p then Mongo.Op.update p else Mongo.Op.skip) = Mongo.Op.skip
          rw [if_neg (by simp)]
        · rw [if_neg h]
          show Mongo.syncFileOp (some doc) filename (j :: js) = Mongo.Op.skip
          show (if doc.questions ≠ p then Mongo.Op.update p else Mongo.Op.skip)
            = Mongo.Op.skip
          rw [if_neg h]

theorem c4_unchanged_corpus_no_writes_witness :
    Mongo.push_to_mongodb
        (some (⟨"react".data, [⟨some 1, some "react".data, ("q1".data : Str)⟩]⟩ :
          Mongo.Doc Str))
        [⟨"react".data, [⟨some 1, some "react".data, ("q1".data : Str)⟩]⟩]
      = Mongo.Op.skip :=
  c4_unchanged_corpus_no_writes.1 Str inferInstance _ _ [] rfl

/-- Claim C5 counterexample: `process_data` does not recompute
`question_id` independently of a value already present on the input
object; a question carrying `question_id = 42` keeps 42 instead of
receiving its 1-based position 1. -/
theorem c5_counterexample_question_id_kept :
    Mongo.process_data (ρ := Unit) "f".data [⟨some 42, none, ()⟩]
      = [⟨some 42, some "f".data, ()⟩]
    ∧ (42 : Nat) ≠ 1 :=
  ⟨rfl, by decide⟩

/-- Claim C5 (amended): on every sync pass, each question at 0-based
position `i` of a file's sequence is assigned
`question_id = existing question_id if the key is present, else i + 1`
(the 1-based position), and `source_file` is set to the file name; the
1-based position is used only when the input object lacks a
`question_id`. -/
theorem c5_question_id_default_position :
    ∀ (ρ : Type) (filename : Str) (data : List (Mongo.MQ ρ)) (i : Nat),
      (Mongo.process_data filename data).get? i
        = (data.get? i).map (fun q =>
            { q with
              question_id := some (q.question_id.getD (i + 1)),
              source_file := some filename }) := by
  intro ρ filename data i
  unfold Mongo.process_data
  rw [Mongo.get?_processFrom]
  have h1 : 1 + i = i + 1 := by omega
  rw [h1]

/-- Claim C6 counterexample: the two writes of the dual-location save are
not independent; in a run where the first (src) write fails, the second
(public) write is never attempted, so a failure on one location does
prevent the write to the other. -/
theorem c6_counterexample_src_failure_blocks_public :
    (MdxReader.save_to_file (α := List Nat) [] ⟨true, false⟩).publicAttempted = false
    ∧ (MdxReader.save_to_file (α := List Nat) [] ⟨true, false⟩).errorLogged = true :=
  ⟨rfl, rfl⟩

/-- Claim C6 (amended): the public write is attempted exactly when the src
write succeeds; a failure of the public write does not roll back the
completed src write; and when both writes succeed the two locations hold
identical content. -/
theorem c6_dual_save_behaviour :
    ∀ (α : Type) (q : α) (w : MdxReader.SaveWorld),
      ((MdxReader.save_to_file q w).publicAttempted = true ↔ w.srcFails = false) ∧
      (w.srcFails = false → w.publicFails = true →
        (MdxReader.save_to_file q w).srcWritten = some q ∧
        (MdxReader.save_to_file q w).publicWritten = none) ∧
      (w.srcFails = false → w.publicFails = false →
        (MdxReader.save_to_file q w).srcWritten = some q ∧
        (MdxReader.save_to_file q w).publicWritten = some q) := by
  intro α q w
  obtain ⟨s, p⟩ := w
  cases s <;> cases p <;> simp [MdxReader.save_to_file]

theorem c6_dual_save_behaviour_witness :
    (MdxReader.save_to_file (α := List Nat) [] ⟨false, true⟩).srcWritten = some []
    ∧ (MdxReader.save_to_file (α := List Nat) [] ⟨false, true⟩).publicWritten = none :=
  (c6_dual_save_behaviour (List Nat) [] ⟨false, true⟩).2.1 rfl rfl

/-- Claim C7 evaluation: a document whose derived output name contains
`react` but whose content is `null` makes the topic-batching step raise a
`TypeError` instead of being skipped: the step fails for every incoming
state, while a null-content document whose name lacks `react` leaves the
state unchanged. -/
theorem c7_null_content_react_doc_raises :
    (∀ st : Str × Nat,
        FullLength.batchStep st
            ⟨["pages".data, "react".data, "hooks.mdx".data], none⟩
          = Except.error FullLength.PyError.typeError) ∧
    PyStr.containsSub "react".data
        (FullLength.convert_to_json_name
          ["pages".data, "react".data, "hooks.mdx".data]) = true ∧
    (∀ st : Str × Nat,
        FullLength.batchStep st
            ⟨["pages".data, "angular".data, "cli.mdx".data], none⟩
          = Except.ok st) := by
  refine ⟨fun st => rfl, rfl, fun st => rfl⟩

/-- Claim C8: link extraction on null content returns the empty sequence;
otherwise it returns the inline-form matches in order of appearance
followed by the markup-form matches in order of appearance with no
deduplication; and on the body
`[Home](/) and <a href="/docs">Docs</a>` it returns exactly
the links (Home, /) then (Docs, /docs). -/
theorem c8_extract_links :
    (MdxReader.extract_links_doc none = []) ∧
    (∀ body : Str,
        MdxReader.extract_links_doc (some body)
          = MdxReader.markdownLinks body ++ MdxReader.htmlLinks body) ∧
    (MdxReader.extract_links_doc
        (some ("[Home](/) and <a href=\"/docs\">Docs</a>".data))
      = [⟨"Home".data, "/".data⟩, ⟨"Docs".data, "/docs".data⟩]) := by
  refine ⟨rfl, fun body => rfl, ?_⟩
  decide

namespace MdxReader

theorem dictGet_dictInsert_same (k v : Str) :
    ∀ (d : PyStr.Dict), PyStr.dictGet k (PyStr.dictInsert k v d) = some v := by
  intro d
  induction d with
  | nil => simp [PyStr.dictInsert, PyStr.dictGet]
  | cons e rest ih =>
    obtain ⟨k0, v0⟩ := e
    by_cases h : k0 = k
    · simp [PyStr.dictInsert, h, PyStr.dictGet]
    · simp [PyStr.dictInsert, h, PyStr.dictGet, ih]

theorem dictGet_dictInsert_ne (k k2 v : Str) (hne : k2 ≠ k) :
    ∀ (d : PyStr.Dict),
      PyStr.dictGet k (PyStr.dictInsert k2 v d) = PyStr.dictGet k d := by
  intro d
  induction d with
  | nil => simp [PyStr.dictInsert, PyStr.dictGet, hne]
  | cons e rest ih =>
    obtain ⟨k0, v0⟩ := e
    by_cases h : k0 = k2
    · subst h
      simp [PyStr.dictInsert, PyStr.dictGet, hne]
    · simp only [PyStr.dictInsert, if_neg h, PyStr.dictGet]
      by_cases h0 : k0 = k
      · simp [h0]
      · simp [h0, ih]

/-- Characterization of the metadata fold: the value stored under key `k`
is the trimmed value of the last line whose trimmed key is `k`, and the
initial dict's value when no such line exists. -/
theorem dictGet_metaFold (k : Str) :
    ∀ (lines : List Str) (d : PyStr.Dict),
      PyStr.dictGet k (lines.foldl metaStep d)
        = match ((lines.filterMap lineEntry).filter
            (fun kv => decide (kv.1 = k))).getLast? with
          | some kv => some kv.2
          | none => PyStr.dictGet k d := by
  intro lines
  induction lines with
  | nil => intro d; simp
  | cons line rest ih =>
    intro d
    rw [List.foldl_cons]
    cases hle : lineEntry line with
    | none =>
      have hstep : metaStep d line = d := by simp [metaStep, hle]
      rw [hstep, ih d, List.filterMap_cons, hle]
    | some kv =>
      obtain ⟨k2, v⟩ := kv
      have hstep : metaStep d line = PyStr.dictInsert k2 v d := by
        simp [metaStep, hle]
      rw [hstep, ih (PyStr.dictInsert k2 v d), List.filterMap_cons, hle]
      by_cases hk : k2 = k
      · subst hk
        rw [List.filter_cons, if_pos (by simp)]
        cases hrf : ((rest.filterMap lineEntry).filter
            (fun kv => decide (kv.1 = k2))).getLast? with
        | none =>
          have hempty : (rest.filterMap lineEntry).filter
              (fun kv => decide (kv.1 = k2)) = [] := by
            rwa [← List.getLast?_eq_none_iff]
          rw [hempty, dictGet_dictInsert_same]
          simp
        | some last =>
          have hne : (rest.filterMap lineEntry).filter
              (fun kv => decide (kv.1 = k2)) ≠ [] := by
            intro hc
            rw [hc] at hrf
            exact Option.noConfusion hrf
          obtain ⟨f0, ftail, hf⟩ := List.exists_cons_of_ne_nil hne
          rw [hf] at hrf
          rw [hf, List.getLast?_cons_cons, hrf]
      · rw [List.filter_cons, if_neg (by simp [hk])]
        cases hrf : ((rest.filterMap lineEntry).filter
            (fun kv => decide (kv.1 = k))).getLast? with
        | none => exact dictGet_dictInsert_ne k k2 v hk d
        | some last => rfl

end MdxReader

/-- Claim C9: when the front-matter block contains multiple lines whose
trimmed key is the same, the mapping holds the trimmed value of the last
such line, earlier values being overwritten; in particular parsing
`---\ntitle: A\ntitle: B\n---\nbody` maps `title` to `B`. -/
theorem c9_last_duplicate_key_wins :
    (∀ (lines : List Str) (k : Str) (kv : Str × Str),
        ((lines.filterMap MdxReader.lineEntry).filter
            (fun e => decide (e.1 = k))).getLast? = some kv →
        PyStr.dictGet k (MdxReader.parseMetaLines lines) = some kv.2) ∧
    PyStr.dictGet "title".data
        (MdxReader.parse_frontmatter "---\ntitle: A\ntitle: B\n---\nbody".data).1
      = some "B".data := by
  constructor
  · intro lines k kv h
    unfold MdxReader.parseMetaLines
    rw [MdxReader.dictGet_metaFold k lines [], h]
  · decide

theorem c9_last_duplicate_key_wins_witness :
    PyStr.dictGet "k".data
        (MdxReader.parseMetaLines ["k: A".data, "k: B".data])
      = some "B".data :=
  c9_last_duplicate_key_wins.1 ["k: A".data, "k: B".data] "k".data
    ("k".data, "B".data) (by decide)

/-- Claim C3: `parse_frontmatter` returns the empty mapping paired with
the input unchanged whenever the input does not begin with the
3-character delimiter, or splitting on the first two delimiter
occurrences yields fewer than 3 parts; in particular the input
`---\nonly-one-delimiter` is returned unchanged. -/
theorem c3_malformed_header_unchanged :
    (∀ raw : Str,
        (MdxReader.dashes.isPrefixOf raw = false
          ∨ (PyStr.splitLim MdxReader.dashes 2 raw).length < 3) →
        MdxReader.parse_frontmatter raw = ([], raw)) ∧
    MdxReader.parse_frontmatter ("---\nonly-one-delimiter".data)
      = ([], "---\nonly-one-delimiter".data) := by
  constructor
  · rintro raw (h | h)
    · unfold MdxReader.parse_frontmatter
      rw [if_pos h]
    · unfold MdxReader.parse_frontmatter
      by_cases hp : MdxReader.dashes.isPrefixOf raw = false
      · rw [if_pos hp]
      · rw [if_neg hp]
        rcases hs : PyStr.splitLim MdxReader.dashes 2 raw with
          _ | ⟨a, _ | ⟨b, _ | ⟨c, restParts⟩⟩⟩
        · rfl
        · rfl
        · rfl
        · rw [hs] at h
          simp only [List.length_cons] at h
          omega
  · decide

theorem c3_malformed_header_unchanged_witness :
    MdxReader.parse_frontmatter "plain body, no header".data
      = ([], "plain body, no header".data) :=
  c3_malformed_header_unchanged.1 "plain body, no header".data
    (Or.inl (by decide))
